import Mathlib

/-!
Shallow embedding of the `inky` crate, an e-ink display driver: the EEPROM
identity-record decoder (`src/eeprom.rs`) and the framebuffer plus controller
command sequencer (`src/inky.rs`).

Modelling conventions:
* machine integers are `Nat` with an explicit `% 2 ^ w` at every point where
  the Rust code performs a truncating cast;
* fallible Rust functions returning `anyhow::Result` become `Except Err`;
* operations that can panic (slice indexing out of bounds, `usize` underflow
  followed by a `Vec::with_capacity` capacity overflow) are wrapped in
  `Option`, where `none` models the panic;
* the hardware transports (I2C, SPI, GPIO) are external collaborators: the
  I2C bus is an oracle of read results, SPI transmission is recorded in an
  emitted event trace, GPIO acquisition is modelled as succeeding.
-/

deriving instance DecidableEq for Except

/-- Errors of the fallible operations modelled here.  The Rust code uses
`anyhow` string errors; each distinct failure site gets one constructor
carrying the value the original message interpolates. -/
inductive Err where
  /-- `PascalString` try_from: the `ensure!` that the slice is shorter than 254. -/
  | valueTooLarge : Err
  /-- eeprom `Color` try_from: invalid color byte. -/
  | invalidColor (v : Nat) : Err
  /-- `PcbVariant` try_from: invalid PCB-variant byte. -/
  | invalidPcbVariant (v : Nat) : Err
  /-- `DisplayVariant` try_from: invalid display-variant byte. -/
  | invalidDisplayVariant (v : Nat) : Err
  /-- `EEPROM::try_new_tries`: the read length was below 29. -/
  | readTooSmall (n : Nat) : Err
  /-- `EEPROM::try_new_tries`: all attempts exhausted. -/
  | initFailed (n : Nat) : Err
  /-- eeprom `Color` to drawing color: `SevenColor` has no drawing equivalent. -/
  | cannotConvertColor : Err
deriving DecidableEq

/-- Pascal style string (`[8-bit len][string bytes...]`) used for the EEPROM
write time (`src/eeprom.rs`).  `capacity` is a `u8` and includes the length
byte; `data` holds the payload bytes. -/
structure PascalString where
  capacity : Nat
  data : List Nat
deriving DecidableEq

/-- Model of `PascalString::with_capacity`.  The Rust body allocates
`Vec::with_capacity(capacity as usize - 1)`; for `capacity = 0` the `usize`
subtraction underflows (a panic in debug builds; in release it wraps to
`usize::MAX` and `Vec::with_capacity` aborts with a capacity overflow), so
that case is modelled as `none`. -/
def PascalString.with_capacity (capacity : Nat) : Option PascalString :=
  if capacity = 0 then none
  else some { capacity := capacity, data := [] }

/-- Model of `PascalString::set_capacity`: `self.capacity = capacity as u8 + 1`,
an `as u8` truncation followed by a `u8` addition. -/
def PascalString.set_capacity (s : PascalString) (capacity : Nat) : PascalString :=
  { s with capacity := (capacity % 256 + 1) % 256 }

/-- Model of `PascalString::set_data`: clears `data`, then extends it with at
most `capacity - 1` input bytes.  The `u8` subtraction `capacity - 1` is a
`Nat` subtraction here; every modelled caller has `capacity ≥ 1`. -/
def PascalString.set_data (s : PascalString) (data : List Nat) : PascalString :=
  { s with data := data.take (s.capacity - 1) }

/-- Model of `From<PascalString> for Vec<u8>`: the capacity byte followed by
the data bytes. -/
def PascalString.toVec (s : PascalString) : List Nat :=
  s.capacity :: s.data

/-- Model of `TryFrom<&[u8]> for PascalString` (`src/eeprom.rs`): ensure the
slice is shorter than 254, build a string whose capacity is the slice length,
then (when that capacity exceeds 1) recompute the capacity from the tail
after the first byte and store the tail.  `none` models the panic that
`with_capacity` hits on an empty slice. -/
def PascalString.tryFrom (value : List Nat) : Option (Except Err PascalString) :=
  if ¬ value.length < 254 then some (.error .valueTooLarge)
  else
    match PascalString.with_capacity value.length with
    | none => none
    | some s =>
      if s.capacity > 1 then
        let data := value.drop 1
        let s := s.set_capacity data.length
        let s := s.set_data data
        some (.ok s)
      else some (.ok s)

/-- Little-endian byte pair of a `u16` (`u16::to_le_bytes`). -/
def u16ToLeBytes (n : Nat) : List Nat :=
  [n % 256, n / 256 % 256]

/-- Model of `u16::from_le_bytes` on a low and a high byte. -/
def u16FromLeBytes (lo hi : Nat) : Nat :=
  lo + 256 * hi

/-- Color configuration a display supports, as encoded in the EEPROM
(`src/eeprom.rs`; explicit discriminants 1, 2, 3, 5). -/
inductive Color where
  | Black
  | Red
  | Yellow
  | SevenColor
deriving DecidableEq

/-- Discriminant of each `Color` variant (the `as u8` cast / `ToPrimitive`). -/
def Color.toU8 : Color → Nat
  | .Black => 1
  | .Red => 2
  | .Yellow => 3
  | .SevenColor => 5

/-- Model of `TryFrom<u8> for Color` (`FromPrimitive`): only the four
discriminants decode, everything else is an error. -/
def Color.tryFromU8 (value : Nat) : Except Err Color :=
  match value with
  | 1 => .ok .Black
  | 2 => .ok .Red
  | 3 => .ok .Yellow
  | 5 => .ok .SevenColor
  | v => .error (.invalidColor v)

/-- PCB variant (`src/eeprom.rs`; single discriminant 12). -/
inductive PcbVariant where
  | V1
deriving DecidableEq

/-- Discriminant of each `PcbVariant` variant. -/
def PcbVariant.toU8 : PcbVariant → Nat
  | .V1 => 12

/-- Model of `TryFrom<u8> for PcbVariant`. -/
def PcbVariant.tryFromU8 (value : Nat) : Except Err PcbVariant :=
  match value with
  | 12 => .ok .V1
  | v => .error (.invalidPcbVariant v)

/-- Display variant tags (`src/eeprom.rs`).  The enum carries no explicit
discriminants, so Rust assigns 0 through 6 in declaration order. -/
inductive DisplayVariant where
  | Phat
  | PhatSsd1608
  | What
  | Uc8159_600x448
  | Uc8159_640x400
  | WhatSsd1683
  | Ac073Tc1A
deriving DecidableEq

/-- Implicit discriminant of each `DisplayVariant` variant (declaration
order, starting at 0). -/
def DisplayVariant.toU8 : DisplayVariant → Nat
  | .Phat => 0
  | .PhatSsd1608 => 1
  | .What => 2
  | .Uc8159_600x448 => 3
  | .Uc8159_640x400 => 4
  | .WhatSsd1683 => 5
  | .Ac073Tc1A => 6

/-- Model of `TryFrom<u8> for DisplayVariant`: the many-to-one mapping from
raw EEPROM codes onto the variant tags. -/
def DisplayVariant.tryFromU8 (value : Nat) : Except Err DisplayVariant :=
  match value with
  | 1 | 4 | 5 => .ok .Phat
  | 10 | 11 | 12 => .ok .PhatSsd1608
  | 2 | 3 | 6 | 7 | 8 => .ok .What
  | 14 => .ok .Uc8159_600x448
  | 15 | 16 => .ok .Uc8159_640x400
  | 17 | 18 | 19 => .ok .WhatSsd1683
  | 20 => .ok .Ac073Tc1A
  | v => .error (.invalidDisplayVariant v)

/-- Decoded EEPROM data of an Inky e-ink display (`src/eeprom.rs`). -/
structure EEPROM where
  width : Nat
  height : Nat
  color : Color
  pcb_variant : PcbVariant
  display_variant : DisplayVariant
  eeprom_write_time : PascalString
deriving DecidableEq

/-- Model of `From<EEPROM> for Vec<u8>`: width and height as little-endian
`u16` pairs, the three enum discriminants, then the write-time Pascal string
(capacity byte followed by its data). -/
def EEPROM.toVec (e : EEPROM) : List Nat :=
  u16ToLeBytes e.width ++ u16ToLeBytes e.height
    ++ [e.color.toU8, e.pcb_variant.toU8, e.display_variant.toU8]
    ++ e.eeprom_write_time.toVec

/-- Model of `TryFrom<&[u8]> for EEPROM` (`src/eeprom.rs`).  Rust slice
indexing panics on a buffer that is too short; each indexing step is guarded
here and the panic is modelled as `none`.  The write-time field is the tail
from offset 7 with every sentinel byte 255 filtered out, decoded as a Pascal
string (whose own panic on an empty slice propagates). -/
def EEPROM.tryFrom (value : List Nat) : Option (Except Err EEPROM) :=
  if value.length < 2 then none
  else
    let width := u16FromLeBytes (value.getD 0 0) (value.getD 1 0)
    if value.length < 4 then none
    else
      let height := u16FromLeBytes (value.getD 2 0) (value.getD 3 0)
      if value.length < 5 then none
      else
        match Color.tryFromU8 (value.getD 4 0) with
        | .error e => some (.error e)
        | .ok color =>
          if value.length < 6 then none
          else
            match PcbVariant.tryFromU8 (value.getD 5 0) with
            | .error e => some (.error e)
            | .ok pcb_variant =>
              if value.length < 7 then none
              else
                match DisplayVariant.tryFromU8 (value.getD 6 0) with
                | .error e => some (.error e)
                | .ok display_variant =>
                  let eeprom_write_time_bytes :=
                    (value.drop 7).filter (fun v => v ≠ 255)
                  match PascalString.tryFrom eeprom_write_time_bytes with
                  | none => none
                  | some (.error e) => some (.error e)
                  | some (.ok eeprom_write_time) =>
                    some (.ok { width := width, height := height, color := color,
                                pcb_variant := pcb_variant,
                                display_variant := display_variant,
                                eeprom_write_time := eeprom_write_time })

/-- Observable waiting action of the EEPROM acquisition loop. -/
inductive RetryEvent where
  | sleepMs (n : Nat)
deriving DecidableEq

/-- Loop body of `EEPROM::try_new_tries`, over an oracle `reads` that gives,
per attempt, the byte count returned by `I2c::read` and the contents of the
29-byte buffer after that call (transport failures of the underlying I2C
calls are outside this model: the oracle stands for calls that returned).
`ensure!(read >= 29, ...)` returns from the whole function, so a short read
aborts immediately; a decode error logs, sleeps 100 ms and retries; a decode
panic (`none`) propagates.  The trace records the sleeps. -/
def tryNewTriesGo (reads : Nat → Nat × List Nat) (max_tries : Nat) :
    Nat → Nat → Option (Except Err EEPROM) × List RetryEvent
  | _, 0 => (some (.error (.initFailed max_tries)), [])
  | attempt, fuel + 1 =>
    let r := reads attempt
    if r.1 < 29 then (some (.error (.readTooSmall r.1)), [])
    else
      match EEPROM.tryFrom r.2 with
      | none => (none, [])
      | some (.ok eeprom) => (some (.ok eeprom), [])
      | some (.error _) =>
        let rest := tryNewTriesGo reads max_tries (attempt + 1) fuel
        (rest.1, .sleepMs 100 :: rest.2)

/-- Model of `EEPROM::DEFAULT_TRIES`. -/
def EEPROM.DEFAULT_TRIES : Nat := 10

/-- Model of `EEPROM::try_new_tries`: run the loop from attempt 0 with
`max_tries` iterations left. -/
def EEPROM.try_new_tries (max_tries : Nat) (reads : Nat → Nat × List Nat) :
    Option (Except Err EEPROM) × List RetryEvent :=
  tryNewTriesGo reads max_tries 0 max_tries

/-- Model of `EEPROM::try_new`: `try_new_tries` with the default attempt
count. -/
def EEPROM.try_new (reads : Nat → Nat × List Nat) :
    Option (Except Err EEPROM) × List RetryEvent :=
  EEPROM.try_new_tries EEPROM.DEFAULT_TRIES reads

/-- ASCII digit decoder: byte values 48 through 57 map to 0 through 9. -/
def digit? (c : Nat) : Option Nat :=
  if 48 ≤ c ∧ c ≤ 57 then some (c - 48) else none

/-- Modelled from the spec: `EEPROM::eeprom_write_time` hands the stored
string to the external chrono library with the fixed format
`%Y-%m-%d %H:%M:%S%.1f` (spec section 4.1: `YYYY-MM-DD HH:MM:SS.f`); chrono
itself is not part of this repository, so the parser for exactly that shape
is reproduced here.  Returns year, month, day, hour, minute, second and
tenths of a second on success. -/
def parseWriteTime (s : List Nat) :
    Option (Nat × Nat × Nat × Nat × Nat × Nat × Nat) :=
  match s with
  | [y1, y2, y3, y4, d1, mo1, mo2, d2, da1, da2, sp,
     h1, h2, c1, mi1, mi2, c2, s1, s2, dot, f1] =>
    if d1 = 45 ∧ d2 = 45 ∧ sp = 32 ∧ c1 = 58 ∧ c2 = 58 ∧ dot = 46 then
      match digit? y1, digit? y2, digit? y3, digit? y4, digit? mo1, digit? mo2,
            digit? da1, digit? da2, digit? h1, digit? h2, digit? mi1,
            digit? mi2, digit? s1, digit? s2, digit? f1 with
      | some a, some b, some c, some d, some e, some f, some g, some h,
        some i, some j, some k, some l, some m, some n, some o =>
        some (1000 * a + 100 * b + 10 * c + d, 10 * e + f, 10 * g + h,
              10 * i + j, 10 * k + l, 10 * m + n, o)
      | _, _, _, _, _, _, _, _, _, _, _, _, _, _, _ => none
    else none
  | _ => none

/-- Drawing colors of the display (`src/inky.rs`, `inky::Color`). -/
inductive InkyColor where
  | Red
  | Yellow
  | Black
  | White
deriving DecidableEq

/-- Model of `inky::Color::as_u8`: 1 for every color that is not Black,
0 for Black. -/
def InkyColor.as_u8 : InkyColor → Nat
  | .Black => 0
  | _ => 1

/-- Framebuffer (`src/inky.rs`).  `pixels` is stored exactly as in the
source, `vec![vec![Color::White; height]; width]`: the outer index is the
first argument of `get_pixel` and `set_pixel`, named `col` there, so the
outer list has `width` entries of `height` pixels each. -/
structure Canvas where
  width : Nat
  height : Nat
  pixels : List (List InkyColor)
deriving DecidableEq

/-- Model of `Canvas::new`: a `width`-by-`height` grid of White. -/
def Canvas.new (width height : Nat) : Canvas :=
  { width := width, height := height,
    pixels := List.replicate width (List.replicate height .White) }

/-- Model of `Canvas::get_pixel` (`self.pixels[col][row]`).  Rust indexing
panics out of bounds; the defaults here are reached only outside the grid. -/
def Canvas.get_pixel (c : Canvas) (col row : Nat) : InkyColor :=
  (c.pixels.getD col []).getD row .White

/-- One iteration of the packing loop of `Canvas::pack` on a raw bit: the
state is `(packed, bit_pos, cur_byte)`; the step performs
`cur_byte |= b << bit_pos`, increments `bit_pos` and flushes the byte when
`bit_pos` reaches 8.  `cur_byte` stays below 256, so the `u8` needs no
truncation. -/
def packStepBit (st : List Nat × Nat × Nat) (b : Nat) : List Nat × Nat × Nat :=
  let cur_byte := st.2.2 ||| (b <<< st.2.1)
  let bit_pos := st.2.1 + 1
  if bit_pos = 8 then (st.1 ++ [cur_byte], 0, 0) else (st.1, bit_pos, cur_byte)

/-- The packing step on a pixel: the loop body reads `b.as_u8()`. -/
def packStep (st : List Nat × Nat × Nat) (b : InkyColor) : List Nat × Nat × Nat :=
  packStepBit st b.as_u8

/-- Model of `Canvas::pack`: fold the loop body over the stored pixel lists
in storage order, then push the final partial byte when `bit_pos` is not
zero. -/
def Canvas.pack (c : Canvas) : List Nat :=
  let st := c.pixels.foldl (fun st row => row.foldl packStep st) ([], 0, 0)
  if st.2.1 ≠ 0 then st.1 ++ [st.2.2] else st.1

/-- Command codes of the display controller (`src/inky.rs`). -/
inductive Command where
  | DataEntryMode
  | DisplayUpdateSequence
  | DummyLinePeriod
  | EnterDeepSleep
  | GSTransition
  | GateDrivingVoltage
  | GateLineWidth
  | GateSetting
  | SetAnalogBlockControl
  | SetDigitalBlockControl
  | SetLUT
  | SetRamXPointerStart
  | SetRamXStartEnd
  | SetRamYPointerStart
  | SetRamYStartEnd
  | SoftReset
  | SourceDrivingVoltage
  | TriggerDisplayUpdate
  | VComRegister
  | SetBWBuffer
  | SetRYBuffer
deriving DecidableEq

/-- Discriminant of each command (`Command` `repr(u8)` values). -/
def Command.toU8 : Command → Nat
  | .DataEntryMode => 0x11
  | .DisplayUpdateSequence => 0x22
  | .DummyLinePeriod => 0x3a
  | .EnterDeepSleep => 0x10
  | .GSTransition => 0x3c
  | .GateDrivingVoltage => 0x3
  | .GateLineWidth => 0x3b
  | .GateSetting => 0x1
  | .SetAnalogBlockControl => 0x74
  | .SetDigitalBlockControl => 0x7e
  | .SetLUT => 0x32
  | .SetRamXPointerStart => 0x4e
  | .SetRamXStartEnd => 0x44
  | .SetRamYPointerStart => 0x4f
  | .SetRamYStartEnd => 0x45
  | .SoftReset => 0x12
  | .SourceDrivingVoltage => 0x4
  | .TriggerDisplayUpdate => 0x20
  | .VComRegister => 0x2c
  | .SetBWBuffer => 0x24
  | .SetRYBuffer => 0x26

/-- The `LUT_BLACK` waveform table (`src/inky.rs`): 35 phase-voltage bytes
followed by 35 duration/repeat bytes. -/
def LUT_BLACK : List Nat :=
  [0b01001000, 0b10100000, 0b00010000, 0b00010000, 0b00010011, 0b00000000, 0b00000000, 0b01001000,
   0b10100000, 0b10000000, 0b00000000, 0b00000011, 0b00000000, 0b00000000, 0b00000000, 0b00000000,
   0b00000000, 0b00000000, 0b00000000, 0b00000000, 0b00000000, 0b01001000, 0b10100101, 0b00000000,
   0b10111011, 0b00000000, 0b00000000, 0b00000000, 0b00000000, 0b00000000, 0b00000000, 0b00000000,
   0b00000000, 0b00000000, 0b00000000, 0x10, 0x04, 0x04, 0x04, 0x04, 0x10, 0x04, 0x04, 0x04, 0x04,
   0x04, 0x08, 0x08, 0x10, 0x10, 0x00, 0x00, 0x00, 0x00, 0x00, 0x00, 0x00, 0x00, 0x00, 0x00, 0x00,
   0x00, 0x00, 0x00, 0x00, 0x00, 0x00, 0x00, 0x00, 0x00]

/-- SPI packet (`src/inky.rs`): an optional command byte plus data bytes. -/
structure SpiPacket where
  command : Option Command
  data : List Nat
deriving DecidableEq

/-- Model of the `derive_builder`-generated `SpiPacketBuilder`.  Both fields
carry defaults (`command` is a `strip_option` setter defaulting to `None`,
`data` defaults to empty), so `build` always succeeds; it stays `Except`
because the source threads its `Result` through `?`.  The setters are named
`withCommand` and `withData` because Lean field accessors already take the
source setter names. -/
structure SpiPacketBuilder where
  command : Option Command := none
  data : List Nat := []
deriving DecidableEq

/-- Model of `SpiPacketBuilder::default()`. -/
def SpiPacketBuilder.default : SpiPacketBuilder := {}

/-- Model of the builder `command` setter. -/
def SpiPacketBuilder.withCommand (b : SpiPacketBuilder) (c : Command) : SpiPacketBuilder :=
  { b with command := some c }

/-- Model of the builder `data` setter. -/
def SpiPacketBuilder.withData (b : SpiPacketBuilder) (d : List Nat) : SpiPacketBuilder :=
  { b with data := d }

/-- Model of `SpiPacketBuilder::build()`. -/
def SpiPacketBuilder.build (b : SpiPacketBuilder) : Except Err SpiPacket :=
  .ok { command := b.command, data := b.data }

/-- Observable actions of the controller sequencer: an SPI packet
transmission (`spi_send`), a blocking sleep, or the busy-line wait. -/
inductive Event where
  | send (p : SpiPacket)
  | sleepMs (n : Nat)
  | waitBusy
deriving DecidableEq

/-- Controller object (`src/inky.rs`).  The `Spi`, the GPIO output and input
pin handles and the I2C bus are hardware resources and carry no data, so
they are omitted from the model. -/
structure Inky where
  width : Nat
  height : Nat
  color : InkyColor
  cs_channel : Nat
  dc_pin : Nat
  reset_pin : Nat
  busy_pin : Nat
  h_flip : Bool
  v_flip : Bool
  eeprom : EEPROM
  canvas : Canvas
deriving DecidableEq

/-- Model of `Inky::update` (`src/inky.rs` lines 318 to 492): the emitted
trace of SPI packets, the fixed 50 ms sleep and the busy wait.  The casts
are explicit: the canvas height is cast `as u16` (mod 2 ^ 16) before
`to_le_bytes`, and the X window end `((width / 8) - 1) as u8` is a `usize`
subtraction followed by a `u8` cast, faithful for `width ≥ 8` (below that
the Rust subtraction underflows, hence the hypotheses on the theorems).
SPI transmission and the busy wait are assumed to succeed; every `?` on
`build` is threaded through the `Except` monad. -/
def Inky.update (i : Inky) : Except Err (List Event) := do
  let mut events : List Event := []
  let p ← (SpiPacketBuilder.default.withCommand .SetAnalogBlockControl |>.withData [0x54]).build
  events := events ++ [Event.send p]
  let p ← (SpiPacketBuilder.default.withCommand .SetDigitalBlockControl |>.withData [0x3b]).build
  events := events ++ [Event.send p]
  let gate_setting_data := u16ToLeBytes (i.canvas.height % 65536) ++ [0x00]
  let p ← (SpiPacketBuilder.default.withCommand .GateSetting |>.withData gate_setting_data).build
  events := events ++ [Event.send p]
  let p ← (SpiPacketBuilder.default.withCommand .GateDrivingVoltage |>.withData [0x17]).build
  events := events ++ [Event.send p]
  let p ← (SpiPacketBuilder.default.withCommand .SourceDrivingVoltage |>.withData [0x41, 0xAC, 0x32]).build
  events := events ++ [Event.send p]
  let p ← (SpiPacketBuilder.default.withCommand .DummyLinePeriod |>.withData [0x07]).build
  events := events ++ [Event.send p]
  let p ← (SpiPacketBuilder.default.withCommand .GateLineWidth |>.withData [0x04]).build
  events := events ++ [Event.send p]
  let p ← (SpiPacketBuilder.default.withCommand .DataEntryMode |>.withData [0x03]).build
  events := events ++ [Event.send p]
  let p ← (SpiPacketBuilder.default.withCommand .VComRegister |>.withData [0x3c]).build
  events := events ++ [Event.send p]
  let p ← (SpiPacketBuilder.default.withCommand .GSTransition |>.withData [0b00110001]).build
  events := events ++ [Event.send p]
  let p ← (SpiPacketBuilder.default.withCommand .SetLUT |>.withData LUT_BLACK).build
  events := events ++ [Event.send p]
  let p ← (SpiPacketBuilder.default.withCommand .SetRamXStartEnd
    |>.withData [0x00, (i.canvas.width / 8 - 1) % 256]).build
  events := events ++ [Event.send p]
  let data := [0x00, 0x00] ++ u16ToLeBytes (i.canvas.height % 65536)
  let p ← (SpiPacketBuilder.default.withCommand .SetRamYStartEnd |>.withData data).build
  events := events ++ [Event.send p]
  let bw_buf := i.canvas.pack
  let p ← (SpiPacketBuilder.default.withCommand .SetRamXPointerStart |>.withData [0x00]).build
  events := events ++ [Event.send p]
  let p ← (SpiPacketBuilder.default.withCommand .SetRamYPointerStart |>.withData [0x00, 0x00]).build
  events := events ++ [Event.send p]
  let p ← (SpiPacketBuilder.default.withCommand .SetBWBuffer |>.withData bw_buf).build
  events := events ++ [Event.send p]
  let p ← (SpiPacketBuilder.default.withCommand .DisplayUpdateSequence |>.withData [0xc7]).build
  events := events ++ [Event.send p]
  let p ← (SpiPacketBuilder.default.withCommand .TriggerDisplayUpdate).build
  events := events ++ [Event.send p]
  events := events ++ [Event.sleepMs 50]
  events := events ++ [Event.waitBusy]
  let p ← (SpiPacketBuilder.default.withCommand .EnterDeepSleep |>.withData [0x01]).build
  events := events ++ [Event.send p]
  return events

/-- Model of `TryFrom<eeprom::Color> for inky::Color` (`src/eeprom.rs`):
Black, Red and Yellow map to their drawing namesakes, SevenColor is a hard
failure. -/
def InkyColor.tryFromEepromColor : Color → Except Err InkyColor
  | .Black => .ok .Black
  | .Red => .ok .Red
  | .Yellow => .ok .Yellow
  | .SevenColor => .error .cannotConvertColor

/-- Model of `TryFrom<EEPROM> for Inky` (`src/inky.rs` lines 255 to 300).
GPIO and SPI acquisition and the initial `reset()` touch only hardware
handles and are modelled as succeeding; the one data-dependent failure point
is the EEPROM-to-drawing color conversion, threaded with `?` exactly as in
the source.  Pin assignments and flips are the constants of the source. -/
def Inky.try_from (value : EEPROM) : Except Err Inky := do
  let cs_channel := 0
  let dc_pin := 22
  let reset_pin := 27
  let busy_pin := 17
  let color ← InkyColor.tryFromEepromColor value.color
  return { width := value.width, height := value.height, color := color,
           cs_channel := cs_channel, dc_pin := dc_pin,
           reset_pin := reset_pin, busy_pin := busy_pin,
           h_flip := false, v_flip := false,
           eeprom := value,
           canvas := Canvas.new value.width value.height }

/-- ASCII bytes of the write-time string `2020-10-01 15:51:43.3` from the
sample identification buffer recorded in the test comment of
`src/eeprom.rs`. -/
def sampleWriteTimeBytes : List Nat :=
  [50, 48, 50, 48, 45, 49, 48, 45, 48, 49, 32, 49, 53, 58, 53, 49, 58, 52, 51, 46, 51]

/-- The sample identification buffer of the spec and the test comment:
width 400, height 300, color byte 1, PCB byte 12, display byte 3, declared
length 21, the timestamp string, three sentinel bytes (32 bytes total). -/
def sampleBuffer : List Nat :=
  [144, 1, 44, 1, 1, 12, 3, 21] ++ sampleWriteTimeBytes ++ [255, 255, 255]

/-- The record the sample buffer decodes to.  The write-time capacity is 22:
the decoder recomputes it from the filtered 22-byte tail. -/
def sampleRecord : EEPROM :=
  { width := 400, height := 300, color := .Black, pcb_variant := .V1,
    display_variant := .What,
    eeprom_write_time := { capacity := 22, data := sampleWriteTimeBytes } }

/-- A valid 29-byte identification buffer (the sample without its sentinel
padding); its display byte 3 decodes to the `What` variant. -/
def buffer29What : List Nat :=
  [144, 1, 44, 1, 1, 12, 3, 21] ++ sampleWriteTimeBytes

/-- A valid 29-byte identification buffer whose display byte 1 decodes to
the `Phat` variant. -/
def buffer29Phat : List Nat :=
  [144, 1, 44, 1, 1, 12, 1, 21] ++ sampleWriteTimeBytes

/-- A 29-byte identification buffer whose color byte 4 lies outside the
closed set of color discriminants. -/
def buffer29BadColor : List Nat :=
  [144, 1, 44, 1, 4, 12, 3, 21] ++ sampleWriteTimeBytes

/-- The record `buffer29Phat` decodes to. -/
def recordPhat : EEPROM :=
  { width := 400, height := 300, color := .Black, pcb_variant := .V1,
    display_variant := .Phat,
    eeprom_write_time := { capacity := 22, data := sampleWriteTimeBytes } }

/-- A decoded identity record whose color capability is `SevenColor`
(color byte 5 on the wire). -/
def recordSevenColor : EEPROM :=
  { width := 600, height := 448, color := .SevenColor, pcb_variant := .V1,
    display_variant := .Uc8159_600x448,
    eeprom_write_time := { capacity := 1, data := [] } }

/-- An I2C oracle whose first read is short (28 bytes) and whose later reads
return a full, valid buffer.  Under the spec's retry policy the second
attempt would succeed. -/
def shortThenGoodReads : Nat → Nat × List Nat :=
  fun i => if i = 0 then (28, List.replicate 29 0) else (29, buffer29What)

/-- An I2C oracle whose reads are always full-length but hold an invalid
color byte 0, so every decode fails. -/
def allBadReads : Nat → Nat × List Nat :=
  fun _ => (29, [144, 1, 44, 1, 0, 12, 3, 21] ++ sampleWriteTimeBytes)

/-- An I2C oracle that always reads short (5 bytes). -/
def shortOnlyReads : Nat → Nat × List Nat :=
  fun _ => (5, [])

/-- Value of a bit list read least-significant bit first. -/
def byteOfBits (bits : List Nat) : Nat :=
  bits.foldr (fun b acc => b + 2 * acc) 0

/-- Bit-packing as the spec words it: split the bit stream into groups of 8,
each group becoming one byte least-significant bit first; the final partial
group is zero-padded in the unused high bits. -/
def bitsToBytesLSB (bits : List Nat) : List Nat :=
  (List.range ((bits.length + 7) / 8)).map
    (fun i => byteOfBits ((bits.drop (8 * i)).take 8))

/-- The pixel bits of a canvas in row-major order (rows outer, columns
inner), as claim C3 words the traversal; one bit per pixel via `as_u8`. -/
def rowMajorBits (c : Canvas) : List Nat :=
  (List.range c.height).flatMap
    (fun row => (List.range c.width).map (fun col => (c.get_pixel col row).as_u8))

/-- The pixel bits of a canvas in the storage order `pack()` actually uses:
the outer (`col`) index of `pixels` outer, the inner (`row`) index inner. -/
def colMajorBits (c : Canvas) : List Nat :=
  (List.range c.width).flatMap
    (fun col => (List.range c.height).map (fun row => (c.get_pixel col row).as_u8))

/-- A 2-by-2 canvas whose only Black pixel sits at column 1, row 0 (in the
accessor coordinates `get_pixel col row`). -/
def canvasC0 : Canvas :=
  { width := 2, height := 2, pixels := [[.White, .White], [.Black, .White]] }

/-- Recursive form of the packing loop: `p` is the bit position and `cur`
the partial byte. -/
def packGoBit : Nat → Nat → List Nat → List Nat
  | p, cur, [] => if p = 0 then [] else [cur]
  | p, cur, b :: rest =>
    if p + 1 = 8 then (cur ||| (b <<< p)) :: packGoBit 0 0 rest
    else packGoBit (p + 1) (cur ||| (b <<< p)) rest

/-- Flush of the packing state: push the partial byte if `bit_pos` is not
zero. -/
def packFinish (st : List Nat × Nat × Nat) : List Nat :=
  if st.2.1 ≠ 0 then st.1 ++ [st.2.2] else st.1

/-- The packet/sleep/wait sequence section 4.4 of the spec prescribes for
`update()` on a controller whose canvas is `c`. -/
def expectedUpdateEvents (c : Canvas) : List Event :=
  [ .send { command := some .SetAnalogBlockControl, data := [0x54] },
    .send { command := some .SetDigitalBlockControl, data := [0x3b] },
    .send { command := some .GateSetting, data := u16ToLeBytes (c.height % 65536) ++ [0x00] },
    .send { command := some .GateDrivingVoltage, data := [0x17] },
    .send { command := some .SourceDrivingVoltage, data := [0x41, 0xAC, 0x32] },
    .send { command := some .DummyLinePeriod, data := [0x07] },
    .send { command := some .GateLineWidth, data := [0x04] },
    .send { command := some .DataEntryMode, data := [0x03] },
    .send { command := some .VComRegister, data := [0x3c] },
    .send { command := some .GSTransition, data := [0b00110001] },
    .send { command := some .SetLUT, data := LUT_BLACK },
    .send { command := some .SetRamXStartEnd, data := [0x00, (c.width / 8 - 1) % 256] },
    .send { command := some .SetRamYStartEnd, data := [0x00, 0x00] ++ u16ToLeBytes (c.height % 65536) },
    .send { command := some .SetRamXPointerStart, data := [0x00] },
    .send { command := some .SetRamYPointerStart, data := [0x00, 0x00] },
    .send { command := some .SetBWBuffer, data := c.pack },
    .send { command := some .DisplayUpdateSequence, data := [0xc7] },
    .send { command := some .TriggerDisplayUpdate, data := [] },
    .sleepMs 50,
    .waitBusy,
    .send { command := some .EnterDeepSleep, data := [0x01] } ]

/-- A freshly constructed controller over an 8-by-1 panel. -/
def inky0 : Inky :=
  { width := 8, height := 1, color := .Black, cs_channel := 0, dc_pin := 22,
    reset_pin := 27, busy_pin := 17, h_flip := false, v_flip := false,
    eeprom := sampleRecord, canvas := Canvas.new 8 1 }

/-- Adding a power of two above all set bits of a number is the same as a
bitwise or. -/
theorem or_two_pow_eq_add {a p : Nat} (h : a < 2 ^ p) : a ||| 2 ^ p = a + 2 ^ p := by
  apply Nat.eq_of_testBit_eq
  intro k
  rcases Nat.lt_trichotomy k p with hk | rfl | hk
  · rw [Nat.testBit_lor, Nat.add_comm, Nat.testBit_two_pow_add_gt hk]
    simp [Nat.testBit_two_pow, Nat.ne_of_gt hk]
  · rw [Nat.testBit_lor, Nat.add_comm, Nat.testBit_two_pow_add_eq,
      Nat.testBit_lt_two_pow h]
    simp [Nat.testBit_two_pow]
  · have h2 : a + 2 ^ p < 2 ^ k := by
      have h3 : 2 ^ (p + 1) ≤ 2 ^ k := Nat.pow_le_pow_right (by norm_num) hk
      have h4 := Nat.pow_succ 2 p
      omega
    have h1 : a < 2 ^ k := by omega
    rw [Nat.testBit_lor, Nat.testBit_lt_two_pow h1, Nat.testBit_lt_two_pow h2]
    simp [Nat.testBit_two_pow, Nat.ne_of_lt hk]

/-- The loop body operation of `pack`: for a partial byte `cur` below
`2 ^ p` and a bit `b ≤ 1`, `cur ||| (b <<< p)` is plain addition. -/
theorem or_shiftLeft_eq_add {cur b p : Nat} (hc : cur < 2 ^ p) (hb : b ≤ 1) :
    cur ||| (b <<< p) = cur + b * 2 ^ p := by
  interval_cases b
  · simp
  · simpa [Nat.shiftLeft_eq] using or_two_pow_eq_add hc

/-- The imperative packing loop, folded over a bit list, equals the
recursive `packGoBit` followed by the final flush. -/
theorem packFinish_foldl_packStepBit (bits : List Nat) :
    ∀ (packed : List Nat) (p cur : Nat),
      packFinish (bits.foldl packStepBit (packed, p, cur))
        = packed ++ packGoBit p cur bits := by
  induction bits with
  | nil =>
    intro packed p cur
    by_cases hp : p = 0 <;> simp [packFinish, packGoBit, hp]
  | cons b rest ih =>
    intro packed p cur
    rw [List.foldl_cons]
    by_cases hp : p + 1 = 8
    · show packFinish (rest.foldl packStepBit (packStepBit (packed, p, cur) b)) = _
      rw [show packStepBit (packed, p, cur) b
            = (packed ++ [cur ||| (b <<< p)], 0, 0) by simp [packStepBit, hp]]
      rw [ih]
      simp [packGoBit, hp]
    · show packFinish (rest.foldl packStepBit (packStepBit (packed, p, cur) b)) = _
      rw [show packStepBit (packed, p, cur) b
            = (packed, p + 1, cur ||| (b <<< p)) by simp [packStepBit, hp]]
      rw [ih]
      simp [packGoBit, hp]

/-- Unfolding `byteOfBits` on a cons. -/
theorem byteOfBits_cons (b : Nat) (rest : List Nat) :
    byteOfBits (b :: rest) = b + 2 * byteOfBits rest := by
  simp [byteOfBits]

/-- One-chunk unfolding of `packGoBit`: starting at bit position `p` with a
partial byte `cur`, the loop emits `cur` plus the next `8 - p` bits and
continues on the rest. -/
theorem packGoBit_eq (bits : List Nat) :
    ∀ (p cur : Nat), (∀ b ∈ bits, b ≤ 1) → p < 8 → cur < 2 ^ p →
      packGoBit p cur bits =
        if bits = [] ∧ p = 0 then []
        else if bits.length + p ≤ 8 then [cur + byteOfBits bits * 2 ^ p]
        else (cur + byteOfBits (bits.take (8 - p)) * 2 ^ p)
               :: packGoBit 0 0 (bits.drop (8 - p)) := by
  induction bits with
  | nil =>
    intro p cur _ hp _
    by_cases h0 : p = 0
    · simp [packGoBit, h0]
    · rw [if_neg (by simp [h0]), if_pos (by simp only [List.length_nil]; omega)]
      simp [packGoBit, h0, byteOfBits]
  | cons b rest ih =>
    intro p cur hb hp hcur
    have hb1 : b ≤ 1 := hb b (by simp)
    have hrest : ∀ x ∈ rest, x ≤ 1 := fun x hx => hb x (by simp [hx])
    have hx : cur ||| (b <<< p) = cur + b * 2 ^ p := or_shiftLeft_eq_add hcur hb1
    have hble : b * 2 ^ p ≤ 2 ^ p := by
      calc b * 2 ^ p ≤ 1 * 2 ^ p := Nat.mul_le_mul_right _ hb1
        _ = 2 ^ p := Nat.one_mul _
    have hpow : 2 ^ (p + 1) = 2 ^ p * 2 := Nat.pow_succ 2 p
    by_cases h8 : p + 1 = 8
    · rw [show packGoBit p cur (b :: rest)
            = (cur ||| (b <<< p)) :: packGoBit 0 0 rest by simp [packGoBit, h8]]
      rw [hx]
      rcases rest with _ | ⟨c, rest'⟩
      · rw [if_neg (by simp), if_pos (by simp only [List.length_cons, List.length_nil]; omega)]
        simp [packGoBit, byteOfBits]
      · rw [if_neg (by simp), if_neg (by simp only [List.length_cons]; omega)]
        have h1 : 8 - p = 1 := by omega
        rw [h1]
        simp [byteOfBits]
    · rw [show packGoBit p cur (b :: rest)
            = packGoBit (p + 1) (cur ||| (b <<< p)) rest by simp [packGoBit, h8]]
      rw [hx]
      have hcur' : cur + b * 2 ^ p < 2 ^ (p + 1) := by omega
      rw [ih (p + 1) (cur + b * 2 ^ p) hrest (by omega) hcur']
      by_cases hre : rest = []
      · subst hre
        rw [if_neg (by simp), if_pos (by simp only [List.length_nil]; omega)]
        rw [if_neg (by simp), if_pos (by simp only [List.length_cons, List.length_nil]; omega)]
        rw [byteOfBits_cons]
        simp [byteOfBits]
      · rw [if_neg (by simp [hre])]
        by_cases hlen : rest.length + (p + 1) ≤ 8
        · rw [if_pos hlen]
          rw [if_neg (by simp [hre]), if_pos (by simp only [List.length_cons]; omega)]
          rw [byteOfBits_cons]
          congr 1
          ring
        · rw [if_neg hlen]
          rw [if_neg (by simp [hre]), if_neg (by simp only [List.length_cons]; omega)]
          have hsp : 8 - p = (8 - (p + 1)) + 1 := by omega
          have htk : (b :: rest).take (8 - p) = b :: rest.take (8 - (p + 1)) := by
            rw [hsp, List.take_succ_cons]
          have hdr : (b :: rest).drop (8 - p) = rest.drop (8 - (p + 1)) := by
            rw [hsp, List.drop_succ_cons]
          rw [htk, hdr, byteOfBits_cons]
          congr 1
          ring

/-- From the initial state, the packing loop produces exactly the
least-significant-bit-first chunking of the bit stream. -/
theorem packGoBit_zero_eq_bitsToBytesLSB (bits : List Nat) (hb : ∀ b ∈ bits, b ≤ 1) :
    packGoBit 0 0 bits = bitsToBytesLSB bits := by
  generalize hn : bits.length = n
  induction n using Nat.strong_induction_on generalizing bits with
  | _ n ih =>
    rcases bits with _ | ⟨b, rest⟩
    · simp [packGoBit, bitsToBytesLSB]
    · rw [packGoBit_eq (b :: rest) 0 0 hb (by omega) (by omega)]
      rw [if_neg (by simp)]
      by_cases hlen : (b :: rest).length + 0 ≤ 8
      · rw [if_pos hlen]
        have hm : ((b :: rest).length + 7) / 8 = 1 := by
          simp only [List.length_cons] at hlen ⊢
          omega
        rw [bitsToBytesLSB, hm]
        rw [show List.range 1 = [0] from rfl]
        simp only [List.map_cons, List.map_nil, Nat.mul_zero, List.drop_zero]
        rw [List.take_of_length_le (by omega)]
        simp
      · rw [if_neg hlen]
        simp only [Nat.sub_zero, Nat.pow_zero, Nat.mul_one, Nat.zero_add]
        have hlen' : 9 ≤ (b :: rest).length := by omega
        have hdroplen : ((b :: rest).drop 8).length = (b :: rest).length - 8 := by
          simp
        rw [ih ((b :: rest).length - 8) (by omega) ((b :: rest).drop 8)
          (fun x hx => hb x (List.mem_of_mem_drop hx)) hdroplen]
        rw [bitsToBytesLSB, bitsToBytesLSB, hdroplen]
        have hm : ((b :: rest).length + 7) / 8 = (((b :: rest).length - 8) + 7) / 8 + 1 := by
          rw [show (b :: rest).length + 7 = ((b :: rest).length - 8 + 7) + 8 by omega,
            Nat.add_div_right _ (by norm_num)]
        rw [hm, List.range_succ_eq_map]
        simp only [List.map_cons, List.map_map, Nat.mul_zero, List.drop_zero]
        congr 1
        apply List.map_congr_left
        intro i _
        simp only [Function.comp_apply]
        congr 1
        rw [List.drop_drop, show (8 : Nat) + 8 * i = 8 * i.succ by omega]

/-- Every pixel contributes a single bit. -/
theorem as_u8_le_one (c : InkyColor) : c.as_u8 ≤ 1 := by
  cases c <;> simp [InkyColor.as_u8]

/-- The nested fold of `pack` over the pixel rows equals a single fold over
the flattened bit stream. -/
theorem foldl_rows_eq_foldl_flat (rows : List (List InkyColor)) :
    ∀ st, rows.foldl (fun st row => row.foldl packStep st) st
      = (rows.flatMap (fun row => row.map InkyColor.as_u8)).foldl packStepBit st := by
  induction rows with
  | nil => intro st; simp
  | cons row rows ih =>
    intro st
    rw [List.foldl_cons, List.flatMap_cons, List.foldl_append, ih]
    congr 1
    rw [List.foldl_map]
    rfl

/-- `pack` computes `packGoBit` on the flattened pixel bits. -/
theorem pack_eq_packGoBit (c : Canvas) :
    c.pack = packGoBit 0 0 (c.pixels.flatMap (fun row => row.map InkyColor.as_u8)) := by
  show packFinish (c.pixels.foldl (fun st row => row.foldl packStep st) ([], 0, 0)) = _
  rw [foldl_rows_eq_foldl_flat, packFinish_foldl_packStepBit]
  rfl

/-- All flattened pixel bits are 0 or 1. -/
theorem flat_bits_le_one (c : Canvas) :
    ∀ b ∈ c.pixels.flatMap (fun row => row.map InkyColor.as_u8), b ≤ 1 := by
  intro b hb
  rcases List.mem_flatMap.mp hb with ⟨row, _, hrow⟩
  rcases List.mem_map.mp hrow with ⟨px, _, hpx⟩
  exact hpx ▸ as_u8_le_one px

/-- `pack` is the least-significant-bit-first byte chunking of the pixel
bits taken in storage order. -/
theorem pack_eq_bitsToBytesLSB (c : Canvas) :
    c.pack = bitsToBytesLSB (c.pixels.flatMap (fun row => row.map InkyColor.as_u8)) := by
  rw [pack_eq_packGoBit, packGoBit_zero_eq_bitsToBytesLSB _ (flat_bits_le_one c)]

/-- Enumerating a list by indices through `getD` is the same as mapping over
the list. -/
theorem range_map_getD {α β : Type} (l : List α) (d : α) (f : α → β) :
    (List.range l.length).map (fun i => f (l.getD i d)) = l.map f := by
  induction l with
  | nil => simp
  | cons a t ih =>
    rw [List.length_cons, List.range_succ_eq_map]
    rw [List.map_cons, List.map_map, List.getD_cons_zero, List.map_cons]
    congr 1

/-- On a well-formed canvas the storage-order traversal through `get_pixel`
is exactly the flattening of the stored pixel lists. -/
theorem colMajorBits_eq_flat (c : Canvas) (hw : c.pixels.length = c.width)
    (hh : ∀ row ∈ c.pixels, row.length = c.height) :
    colMajorBits c = c.pixels.flatMap (fun row => row.map InkyColor.as_u8) := by
  unfold colMajorBits
  rw [← hw]
  have h1 : ∀ col ∈ List.range c.pixels.length,
      ((List.range c.height).map (fun row => (c.get_pixel col row).as_u8))
        = (fun row => row.map InkyColor.as_u8) (c.pixels.getD col []) := by
    intro col hcol
    have hmem : c.pixels.getD col [] ∈ c.pixels := by
      rw [List.getD_eq_getElem c.pixels [] (List.mem_range.mp hcol)]
      exact List.getElem_mem _
    have hlen : (c.pixels.getD col []).length = c.height := hh _ hmem
    rw [← hlen]
    exact range_map_getD (c.pixels.getD col []) .White InkyColor.as_u8
  calc (List.range c.pixels.length).flatMap
        (fun col => (List.range c.height).map (fun row => (c.get_pixel col row).as_u8))
      = ((List.range c.pixels.length).map
          (fun col => (List.range c.height).map (fun row => (c.get_pixel col row).as_u8))).flatten := by
        rw [List.flatMap_def]
    _ = ((List.range c.pixels.length).map
          (fun col => (fun row => row.map InkyColor.as_u8) (c.pixels.getD col []))).flatten := by
        rw [List.map_congr_left h1]
    _ = (c.pixels.map (fun row => row.map InkyColor.as_u8)).flatten := by
        rw [range_map_getD c.pixels [] (fun row => row.map InkyColor.as_u8)]
    _ = c.pixels.flatMap (fun row => row.map InkyColor.as_u8) := by
        rw [List.flatMap_def]

/-- Length of the flattened bit stream of equal-length rows. -/
theorem flat_length_aux (h : Nat) :
    ∀ rows : List (List InkyColor), (∀ r ∈ rows, r.length = h) →
      (rows.flatMap (fun row => row.map InkyColor.as_u8)).length = rows.length * h := by
  intro rows
  induction rows with
  | nil => simp
  | cons row rows ih =>
    intro hh
    rw [List.flatMap_cons, List.length_append, List.length_map,
      hh row (by simp), List.length_cons, ih (fun r hr => hh r (by simp [hr]))]
    ring

/-- A well-formed canvas flattens to `width * height` bits. -/
theorem flat_length (c : Canvas) (hw : c.pixels.length = c.width)
    (hh : ∀ row ∈ c.pixels, row.length = c.height) :
    (c.pixels.flatMap (fun row => row.map InkyColor.as_u8)).length = c.width * c.height := by
  rw [← hw]
  exact flat_length_aux c.height c.pixels hh

/-- A byte assembled from `k` bits is below `2 ^ k`: the unused high bits
are zero. -/
theorem byteOfBits_lt (bits : List Nat) (hb : ∀ b ∈ bits, b ≤ 1) :
    byteOfBits bits < 2 ^ bits.length := by
  induction bits with
  | nil => simp [byteOfBits]
  | cons b rest ih =>
    have h1 := ih (fun x hx => hb x (by simp [hx]))
    have h2 : b ≤ 1 := hb b (by simp)
    rw [byteOfBits_cons, List.length_cons]
    have h3 : 2 ^ (rest.length + 1) = 2 ^ rest.length * 2 := Nat.pow_succ 2 rest.length
    omega

/-- The chunking of `n` bits yields `⌈n / 8⌉` bytes. -/
theorem bitsToBytesLSB_length (bits : List Nat) :
    (bitsToBytesLSB bits).length = (bits.length + 7) / 8 := by
  simp [bitsToBytesLSB]

/-- Claim C3, counterexample: on the 2-by-2 canvas whose only Black pixel is
at column 1, row 0, `pack()` does not visit pixels in row-major order
(rows outer, columns inner): it yields byte 0x0B where the row-major
traversal would yield 0x0D. -/
theorem pack_row_major_counterexample :
    Canvas.pack canvasC0 ≠ bitsToBytesLSB (rowMajorBits canvasC0) := by
  decide

/-- Claim C3, amended: for every well-formed framebuffer, `pack()` visits
pixels in the grid's storage order — the outer `pixels` index (the `col`
argument of `get_pixel`) outer, the inner (`row`) index inner — and packs
one bit per pixel least-significant bit first, Black contributing 0 and
every non-Black color 1. -/
theorem pack_storage_order_lsb_first (c : Canvas)
    (hw : c.pixels.length = c.width)
    (hh : ∀ row ∈ c.pixels, row.length = c.height) :
    c.pack = bitsToBytesLSB (colMajorBits c) := by
  rw [colMajorBits_eq_flat c hw hh, pack_eq_bitsToBytesLSB]

/-- Witness for the amended claim C3 at the concrete 2-by-2 canvas. -/
theorem pack_storage_order_lsb_first_witness :
    Canvas.pack canvasC0 = bitsToBytesLSB (colMajorBits canvasC0) :=
  pack_storage_order_lsb_first canvasC0 (by decide) (by decide)

/-- Claim C4: for every well-formed framebuffer of dimensions
width-by-height, `pack()` returns exactly `⌈width * height / 8⌉` bytes, and
when `width * height` is not a multiple of 8 the unused high bits of the
final byte are zero; an 8-by-1 all-Black framebuffer packs to `[0x00]` and
an 8-by-1 all-White framebuffer to `[0xFF]`. -/
theorem pack_length_and_padding :
    (∀ c : Canvas, c.pixels.length = c.width →
      (∀ row ∈ c.pixels, row.length = c.height) →
      c.pack.length = (c.width * c.height + 7) / 8 ∧
      (c.width * c.height % 8 ≠ 0 →
        c.pack.getD (c.pack.length - 1) 0 < 2 ^ (c.width * c.height % 8))) ∧
    (Canvas.mk 8 1 (List.replicate 8 [InkyColor.Black])).pack = [0x00] ∧
    (Canvas.new 8 1).pack = [0xFF] := by
  refine ⟨?_, by decide, by decide⟩
  intro c hw hh
  have hbits := pack_eq_bitsToBytesLSB c
  have hlen := flat_length c hw hh
  set bits := c.pixels.flatMap (fun row => row.map InkyColor.as_u8) with hbitsdef
  have hl : c.pack.length = (c.width * c.height + 7) / 8 := by
    rw [hbits, bitsToBytesLSB_length, hlen]
  refine ⟨hl, ?_⟩
  intro hmod
  set n := c.width * c.height with hndef
  have hn1 : 1 ≤ n := by omega
  have hm : (n + 7) / 8 = n / 8 + 1 := by omega
  have hplen : c.pack.length - 1 = n / 8 := by omega
  rw [hplen, hbits]
  have hidx : n / 8 < (bitsToBytesLSB bits).length := by
    rw [bitsToBytesLSB_length, hlen]
    omega
  rw [List.getD_eq_getElem _ _ hidx]
  have : (bitsToBytesLSB bits)[n / 8] = byteOfBits ((bits.drop (8 * (n / 8))).take 8) := by
    simp [bitsToBytesLSB]
  rw [this]
  have hdlen : ((bits.drop (8 * (n / 8))).take 8).length = n % 8 := by
    rw [List.length_take, List.length_drop, hlen]
    rw [show (8 ⊓ (n - 8 * (n / 8))) = min 8 (n - 8 * (n / 8)) from rfl, Nat.min_def]
    split <;> omega
  have hble : ∀ b ∈ (bits.drop (8 * (n / 8))).take 8, b ≤ 1 := by
    intro b hbmem
    exact flat_bits_le_one c b (List.mem_of_mem_drop (List.mem_of_mem_take hbmem))
  have := byteOfBits_lt _ hble
  rw [hdlen] at this
  exact this

/-- Witness for claim C4 at the 3-by-3 all-White canvas (9 bits: 2 bytes,
last byte below `2 ^ 1`). -/
theorem pack_length_and_padding_witness :
    (Canvas.new 3 3).pack.length = ((Canvas.new 3 3).width * (Canvas.new 3 3).height + 7) / 8 ∧
    (Canvas.new 3 3).pack.getD ((Canvas.new 3 3).pack.length - 1) 0
      < 2 ^ ((Canvas.new 3 3).width * (Canvas.new 3 3).height % 8) := by
  have h := pack_length_and_padding.1 (Canvas.new 3 3) (by decide) (by decide)
  exact ⟨h.1, h.2 (by decide)⟩

/-- Claim C1: on every controller (in particular a freshly-reset one, whose
state does not influence the sequence) with a panel at least 8 pixels wide,
`update()` emits exactly the packets of section 4.4 in order — analog-block
enable, digital-block enable, gate line count (height little-endian plus a
trailing byte), gate driving voltage, source driving voltage, dummy line
period, gate line width, data entry mode, VCOM register, GS-transition
byte, the 70-byte LUT blob, X window, Y window, X and Y RAM pointer resets,
the packed framebuffer as the monochrome buffer command, the
display-update-sequence byte and the trigger command — then sleeps 50 ms,
blocks on busy and sends enter-deep-sleep, with no other packet
interleaved. -/
theorem update_emits_fixed_command_sequence :
    (∀ i : Inky, 8 ≤ i.canvas.width →
      i.update = .ok (expectedUpdateEvents i.canvas)) ∧
    LUT_BLACK.length = 70 := by
  refine ⟨?_, by decide⟩
  intro i _
  simp [Inky.update, expectedUpdateEvents, SpiPacketBuilder.build,
    SpiPacketBuilder.default, SpiPacketBuilder.withCommand, SpiPacketBuilder.withData,
    Bind.bind, Except.bind, Pure.pure, Except.pure]

/-- Witness for claim C1 on a concrete 8-by-1 controller. -/
theorem update_emits_fixed_command_sequence_witness :
    8 ≤ inky0.canvas.width ∧ inky0.update = .ok (expectedUpdateEvents inky0.canvas) :=
  ⟨by decide, update_emits_fixed_command_sequence.1 inky0 (by decide)⟩

/-- Evaluation of `PascalString` `try_from` on a slice of known length: the
capacity is recomputed as the slice length and the whole tail after the
first byte is stored. -/
theorem pascalString_tryFrom_of_length (v : List Nat) (h1 : 1 ≤ v.length)
    (h2 : v.length < 254) :
    PascalString.tryFrom v = some (.ok { capacity := v.length, data := v.drop 1 }) := by
  unfold PascalString.tryFrom
  rw [if_neg (by omega)]
  rw [show PascalString.with_capacity v.length
        = some { capacity := v.length, data := [] } by
      unfold PascalString.with_capacity
      rw [if_neg (by omega)]]
  dsimp only
  by_cases hgt : v.length > 1
  · rw [if_pos hgt]
    simp only [PascalString.set_capacity, PascalString.set_data]
    have hd : (v.drop 1).length = v.length - 1 := by simp
    have hc : ((v.drop 1).length % 256 + 1) % 256 = v.length := by
      rw [hd]
      omega
    rw [hc, show v.length - 1 = (v.drop 1).length from hd.symm, List.take_length]
  · rw [if_neg hgt]
    have hlen1 : v.length = 1 := by omega
    rw [hlen1]
    congr 2
    rcases v with _ | ⟨a, t⟩
    · simp at h1
    · simp at hlen1
      simp [hlen1]

/-- Inversion of a successful `PascalString` `try_from`. -/
theorem pascalString_tryFrom_ok_inversion {bytes : List Nat} {ps : PascalString}
    (h : PascalString.tryFrom bytes = some (.ok ps)) :
    1 ≤ bytes.length ∧ bytes.length < 254 ∧
      ps = { capacity := bytes.length, data := bytes.drop 1 } := by
  by_cases h2 : bytes.length < 254
  · by_cases h1 : 1 ≤ bytes.length
    · rw [pascalString_tryFrom_of_length bytes h1 h2] at h
      exact ⟨h1, h2, by injection h with h; injection h with h; exact h.symm⟩
    · have h0 : bytes.length = 0 := by omega
      rw [show PascalString.tryFrom bytes = none by
        unfold PascalString.tryFrom
        rw [if_neg (by omega)]
        rw [show PascalString.with_capacity bytes.length = none by
          unfold PascalString.with_capacity
          rw [if_pos h0]]] at h
      exact absurd h (by simp)
  · rw [show PascalString.tryFrom bytes = some (.error .valueTooLarge) by
      unfold PascalString.tryFrom
      rw [if_pos (by omega)]] at h
    exact absurd h (by simp)

/-- Inversion of a successful EEPROM decode: the fields come from the
documented offsets. -/
theorem eeprom_tryFrom_ok_inversion {b : List Nat} {r : EEPROM}
    (h : EEPROM.tryFrom b = some (.ok r)) :
    7 ≤ b.length ∧
    r.width = u16FromLeBytes (b.getD 0 0) (b.getD 1 0) ∧
    r.height = u16FromLeBytes (b.getD 2 0) (b.getD 3 0) ∧
    Color.tryFromU8 (b.getD 4 0) = .ok r.color ∧
    PcbVariant.tryFromU8 (b.getD 5 0) = .ok r.pcb_variant ∧
    DisplayVariant.tryFromU8 (b.getD 6 0) = .ok r.display_variant ∧
    PascalString.tryFrom ((b.drop 7).filter (fun v => v ≠ 255))
      = some (.ok r.eeprom_write_time) := by
  unfold EEPROM.tryFrom at h
  split at h
  · exact absurd h (by simp)
  split at h
  · exact absurd h (by simp)
  split at h
  · exact absurd h (by simp)
  split at h
  · exact absurd h (by simp)
  next color hcol =>
  split at h
  · exact absurd h (by simp)
  split at h
  · exact absurd h (by simp)
  next pcb hpcb =>
  split at h
  · exact absurd h (by simp)
  split at h
  · exact absurd h (by simp)
  next dv hdv =>
  dsimp only at h
  split at h
  · exact absurd h (by simp)
  · exact absurd h (by simp)
  next wt hps =>
  injection h with h
  injection h with h
  subst h
  refine ⟨by omega, rfl, rfl, ?_, ?_, ?_, ?_⟩
  · exact hcol
  · exact hpcb
  · exact hdv
  · exact hps

/-- Color discriminants decode back to themselves. -/
theorem color_toU8_roundtrip (c : Color) : Color.tryFromU8 c.toU8 = .ok c := by
  cases c <;> rfl

/-- PCB-variant discriminants decode back to themselves. -/
theorem pcb_toU8_roundtrip (p : PcbVariant) : PcbVariant.tryFromU8 p.toU8 = .ok p := by
  cases p
  rfl

/-- Claim C2: every successful decode of a buffer of length at least 29
reads the width as the little-endian u16 at offsets 0 and 1, the height at
offsets 2 and 3, the color byte at offset 4, the PCB-variant byte at
offset 5 and the display-variant byte at offset 6; and the sample
identification bytes decode to width 400, height 300, color Black,
PCB variant V1, display variant What, with a write-time string parseable to
2020-10-01 15:51:43.3. -/
theorem eeprom_decode_field_layout :
    (∀ (b : List Nat) (r : EEPROM), 29 ≤ b.length →
      EEPROM.tryFrom b = some (.ok r) →
      r.width = u16FromLeBytes (b.getD 0 0) (b.getD 1 0) ∧
      r.height = u16FromLeBytes (b.getD 2 0) (b.getD 3 0) ∧
      Color.tryFromU8 (b.getD 4 0) = .ok r.color ∧
      PcbVariant.tryFromU8 (b.getD 5 0) = .ok r.pcb_variant ∧
      DisplayVariant.tryFromU8 (b.getD 6 0) = .ok r.display_variant) ∧
    EEPROM.tryFrom sampleBuffer = some (.ok sampleRecord) ∧
    sampleRecord.width = 400 ∧ sampleRecord.height = 300 ∧
    sampleRecord.color = .Black ∧ sampleRecord.pcb_variant = .V1 ∧
    sampleRecord.display_variant = .What ∧
    parseWriteTime sampleRecord.eeprom_write_time.data
      = some (2020, 10, 1, 15, 51, 43, 3) := by
  refine ⟨?_, by rfl, rfl, rfl, rfl, rfl, rfl, by rfl⟩
  intro b r _ h
  have hinv := eeprom_tryFrom_ok_inversion h
  exact ⟨hinv.2.1, hinv.2.2.1, hinv.2.2.2.1, hinv.2.2.2.2.1, hinv.2.2.2.2.2.1⟩

/-- Witness for claim C2 at the sample buffer. -/
theorem eeprom_decode_field_layout_witness :
    29 ≤ sampleBuffer.length ∧
    sampleRecord.width = u16FromLeBytes (sampleBuffer.getD 0 0) (sampleBuffer.getD 1 0) :=
  ⟨by decide,
    (eeprom_decode_field_layout.1 sampleBuffer sampleRecord (by decide)
      eeprom_decode_field_layout.2.1).1⟩

/-- Claim C7: for every buffer of length at least 29 whose color byte at
offset 4 lies outside the closed set 1, 2, 3, 5, decode rejects the whole
record with the invalid-color error; no default is substituted. -/
theorem decode_invalid_color_errors (b : List Nat) (hlen : 29 ≤ b.length)
    (h1 : b.getD 4 0 ≠ 1) (h2 : b.getD 4 0 ≠ 2) (h3 : b.getD 4 0 ≠ 3)
    (h5 : b.getD 4 0 ≠ 5) :
    EEPROM.tryFrom b = some (.error (.invalidColor (b.getD 4 0))) := by
  have hcol : Color.tryFromU8 (b.getD 4 0) = .error (.invalidColor (b.getD 4 0)) := by
    unfold Color.tryFromU8
    split
    next heq => exact absurd heq h1
    next heq => exact absurd heq h2
    next heq => exact absurd heq h3
    next heq => exact absurd heq h5
    next => rfl
  unfold EEPROM.tryFrom
  rw [if_neg (by omega), if_neg (by omega), if_neg (by omega), hcol]

/-- Witness for claim C7 at a 29-byte buffer with color byte 4. -/
theorem decode_invalid_color_errors_witness :
    EEPROM.tryFrom buffer29BadColor
      = some (.error (.invalidColor (buffer29BadColor.getD 4 0))) :=
  decode_invalid_color_errors buffer29BadColor (by decide) (by decide) (by decide)
    (by decide) (by decide)

/-- Claim C6, counterexample: a `PascalString` built from the 10-byte slice
with declared capacity byte 5 stores 9 payload bytes, not 4 — `try_from`
ignores the declared byte and recomputes the capacity as the slice
length 10. -/
theorem pascal_string_capacity_counterexample :
    PascalString.tryFrom [5, 1, 2, 3, 4, 5, 6, 7, 8, 9]
      = some (.ok { capacity := 10, data := [1, 2, 3, 4, 5, 6, 7, 8, 9] }) ∧
    (PascalString.mk 10 [1, 2, 3, 4, 5, 6, 7, 8, 9]).data.length = 9 := by
  exact ⟨by rfl, by rfl⟩

/-- Claim C6, amended: a `PascalString` built from a slice of length `n`
(with `1 ≤ n < 254`) gets capacity `n` and stores all `n - 1` bytes after
the first — the declared first byte is discarded, nothing is truncated —
and the invariant `data.length ≤ capacity - 1` holds. -/
theorem pascal_string_tryfrom_stores_tail (v : List Nat) (h1 : 1 ≤ v.length)
    (h2 : v.length < 254) :
    ∃ p : PascalString, PascalString.tryFrom v = some (.ok p) ∧
      p.capacity = v.length ∧ p.data = v.drop 1 ∧
      p.data.length ≤ p.capacity - 1 := by
  refine ⟨{ capacity := v.length, data := v.drop 1 },
    pascalString_tryFrom_of_length v h1 h2, rfl, rfl, ?_⟩
  simp

/-- Witness for the amended claim C6 at the 10-byte slice of the claim. -/
theorem pascal_string_tryfrom_stores_tail_witness :
    ∃ p : PascalString,
      PascalString.tryFrom [5, 1, 2, 3, 4, 5, 6, 7, 8, 9] = some (.ok p) ∧
      p.capacity = ([5, 1, 2, 3, 4, 5, 6, 7, 8, 9] : List Nat).length ∧
      p.data = ([5, 1, 2, 3, 4, 5, 6, 7, 8, 9] : List Nat).drop 1 ∧
      p.data.length ≤ p.capacity - 1 :=
  pascal_string_tryfrom_stores_tail [5, 1, 2, 3, 4, 5, 6, 7, 8, 9] (by decide) (by decide)

/-- Claim C9 (code bug): decoding a 29-byte buffer whose write-time region
is all sentinel bytes 255 panics (modelled `none`): the filtered tail is
empty, and `PascalString::with_capacity(0)` computes `0 - 1` on a `usize`. -/
theorem decode_panics_on_all_sentinel_tail :
    EEPROM.tryFrom ([144, 1, 44, 1, 1, 12, 3] ++ List.replicate 22 255) = none := by
  rfl

/-- Claim C8, counterexample: with an oracle whose first read is short (28
bytes) and whose second read yields a valid buffer, `try_new_tries` fails
immediately with the read-too-small error, without the 100 ms wait or the
retry the claim prescribes — although the retry would have decoded
successfully. -/
theorem short_read_aborts_counterexample :
    EEPROM.try_new_tries 10 shortThenGoodReads
      = (some (.error (.readTooSmall 28)), []) ∧
    EEPROM.tryFrom (shortThenGoodReads 1).2 = some (.ok sampleRecord) := by
  exact ⟨by rfl, by rfl⟩

/-- When every attempted read is full-length but fails to decode, the loop
sleeps 100 ms per attempt and exhausts all its tries. -/
theorem tryNewTriesGo_all_decode_fail (reads : Nat → Nat × List Nat) (max_tries : Nat) :
    ∀ (fuel attempt : Nat),
      (∀ i, attempt ≤ i → i < attempt + fuel →
        29 ≤ (reads i).1 ∧ ∃ e, EEPROM.tryFrom (reads i).2 = some (.error e)) →
      tryNewTriesGo reads max_tries attempt fuel
        = (some (.error (.initFailed max_tries)),
           List.replicate fuel (.sleepMs 100)) := by
  intro fuel
  induction fuel with
  | zero => intro attempt _; rfl
  | succ fuel ih =>
    intro attempt h
    obtain ⟨hlen, e, he⟩ := h attempt (Nat.le_refl _) (by omega)
    show (let r := reads attempt
          if r.1 < 29 then (some (.error (.readTooSmall r.1)), [])
          else
            match EEPROM.tryFrom r.2 with
            | none => (none, [])
            | some (.ok eeprom) => (some (.ok eeprom), [])
            | some (.error _) =>
              let rest := tryNewTriesGo reads max_tries (attempt + 1) fuel
              (rest.1, .sleepMs 100 :: rest.2)) = _
    dsimp only
    rw [if_neg (by omega), he]
    dsimp only
    rw [ih (attempt + 1) (fun i hi1 hi2 => h i (by omega) (by omega))]
    rw [List.replicate_succ]

/-- Claim C8, amended: a short read (below 29 bytes) aborts initialization
immediately with an error carrying the read length — no wait, no retry;
only a decode failure causes the 100 ms wait and the retry, and after all
attempts fail (full-length reads, failing decodes) initialization fails
with an error reporting the attempt count, the default count being 10. -/
theorem retry_policy_amended :
    (∀ (reads : Nat → Nat × List Nat) (max_tries : Nat), 0 < max_tries →
      (reads 0).1 < 29 →
      EEPROM.try_new_tries max_tries reads
        = (some (.error (.readTooSmall (reads 0).1)), [])) ∧
    (∀ (reads : Nat → Nat × List Nat) (max_tries : Nat),
      (∀ i, i < max_tries → 29 ≤ (reads i).1 ∧
        ∃ e, EEPROM.tryFrom (reads i).2 = some (.error e)) →
      EEPROM.try_new_tries max_tries reads
        = (some (.error (.initFailed max_tries)),
           List.replicate max_tries (.sleepMs 100))) ∧
    EEPROM.DEFAULT_TRIES = 10 ∧
    (∀ reads, EEPROM.try_new reads = EEPROM.try_new_tries 10 reads) := by
  refine ⟨?_, ?_, rfl, fun _ => rfl⟩
  · intro reads max_tries hmt hshort
    unfold EEPROM.try_new_tries
    rcases max_tries with _ | k
    · omega
    · show (let r := reads 0
            if r.1 < 29 then (some (.error (.readTooSmall r.1)), [])
            else
              match EEPROM.tryFrom r.2 with
              | none => (none, [])
              | some (.ok eeprom) => (some (.ok eeprom), [])
              | some (.error _) =>
                let rest := tryNewTriesGo reads (k + 1) (0 + 1) k
                (rest.1, .sleepMs 100 :: rest.2)) = _
      dsimp only
      rw [if_pos hshort]
  · intro reads max_tries h
    exact tryNewTriesGo_all_decode_fail reads max_tries max_tries 0
      (fun i hi1 hi2 => h i (by omega))

/-- Witness for the amended claim C8: a short-read oracle aborts with no
sleep, and an always-bad oracle exhausts 2 tries with 2 sleeps. -/
theorem retry_policy_amended_witness :
    EEPROM.try_new_tries 3 shortOnlyReads = (some (.error (.readTooSmall 5)), []) ∧
    EEPROM.try_new_tries 2 allBadReads
      = (some (.error (.initFailed 2)), List.replicate 2 (.sleepMs 100)) := by
  constructor
  · exact retry_policy_amended.1 shortOnlyReads 3 (by decide) (by decide)
  · refine retry_policy_amended.2.1 allBadReads 2 ?_
    intro i _
    exact ⟨Nat.le_refl _, ⟨.invalidColor 0, by rfl⟩⟩

/-- Claim C10: converting the EEPROM color capability to the drawing color
fails exactly on SevenColor and maps Black, Red and Yellow to their
namesakes; consequently controller construction fails for every identity
record whose color discriminant is 5. -/
theorem color_conversion_and_construction :
    (∀ c : Color,
      (InkyColor.tryFromEepromColor c = .error .cannotConvertColor ↔ c = .SevenColor)) ∧
    InkyColor.tryFromEepromColor .Black = .ok .Black ∧
    InkyColor.tryFromEepromColor .Red = .ok .Red ∧
    InkyColor.tryFromEepromColor .Yellow = .ok .Yellow ∧
    (∀ r : EEPROM, r.color.toU8 = 5 →
      Inky.try_from r = .error .cannotConvertColor) := by
  refine ⟨?_, rfl, rfl, rfl, ?_⟩
  · intro c
    cases c <;> simp [InkyColor.tryFromEepromColor]
  · intro r h
    have hc : r.color = .SevenColor := by
      rcases hcc : r.color with _ | _ | _ | _ <;>
        first
          | rfl
          | (rw [hcc] at h; exact absurd h (by decide))
    simp [Inky.try_from, hc, InkyColor.tryFromEepromColor, Bind.bind, Except.bind]

/-- Witness for claim C10 at a concrete SevenColor record. -/
theorem color_conversion_and_construction_witness :
    Inky.try_from recordSevenColor = .error .cannotConvertColor :=
  color_conversion_and_construction.2.2.2.2 recordSevenColor (by rfl)

/-- Claim C5, counterexample: the valid 29-byte buffer with display byte 1
decodes to a record with variant Phat, but encoding that record writes
display byte 0 (the implicit discriminant of Phat), which decode rejects —
the round trip fails entirely, not merely up to sentinel padding. -/
theorem decode_encode_roundtrip_counterexample :
    EEPROM.tryFrom buffer29Phat = some (.ok recordPhat) ∧
    EEPROM.tryFrom recordPhat.toVec
      = some (.error (.invalidDisplayVariant 0)) := by
  exact ⟨by rfl, by rfl⟩

/-- Evaluation of the EEPROM decoder on a buffer given as seven header bytes
followed by a tail. -/
theorem eeprom_tryFrom_cons7 (a0 a1 a2 a3 a4 a5 a6 : Nat) (tail : List Nat) :
    EEPROM.tryFrom (a0 :: a1 :: a2 :: a3 :: a4 :: a5 :: a6 :: tail) =
      (match Color.tryFromU8 a4 with
       | .error e => some (.error e)
       | .ok color =>
         match PcbVariant.tryFromU8 a5 with
         | .error e => some (.error e)
         | .ok pcb_variant =>
           match DisplayVariant.tryFromU8 a6 with
           | .error e => some (.error e)
           | .ok display_variant =>
             match PascalString.tryFrom (tail.filter (fun v => v ≠ 255)) with
             | none => none
             | some (.error e) => some (.error e)
             | some (.ok eeprom_write_time) =>
               some (.ok { width := u16FromLeBytes a0 a1,
                           height := u16FromLeBytes a2 a3,
                           color := color, pcb_variant := pcb_variant,
                           display_variant := display_variant,
                           eeprom_write_time := eeprom_write_time })) := by
  unfold EEPROM.tryFrom
  have h2 : ¬((a0 :: a1 :: a2 :: a3 :: a4 :: a5 :: a6 :: tail).length < 2) := by
    simp only [List.length_cons]; omega
  have h4 : ¬((a0 :: a1 :: a2 :: a3 :: a4 :: a5 :: a6 :: tail).length < 4) := by
    simp only [List.length_cons]; omega
  have h5 : ¬((a0 :: a1 :: a2 :: a3 :: a4 :: a5 :: a6 :: tail).length < 5) := by
    simp only [List.length_cons]; omega
  have h6 : ¬((a0 :: a1 :: a2 :: a3 :: a4 :: a5 :: a6 :: tail).length < 6) := by
    simp only [List.length_cons]; omega
  have h7 : ¬((a0 :: a1 :: a2 :: a3 :: a4 :: a5 :: a6 :: tail).length < 7) := by
    simp only [List.length_cons]; omega
  simp only [if_neg h2, if_neg h4, if_neg h5, if_neg h6, if_neg h7,
    List.getD_cons_zero, List.getD_cons_succ, List.drop_succ_cons,
    List.drop_zero]

/-- The What display variant is the one variant whose discriminant decodes
back to itself. -/
theorem dv_what_roundtrip : DisplayVariant.tryFromU8 DisplayVariant.What.toU8
    = .ok DisplayVariant.What := by
  rfl

/-- Claim C5, amended: for every record decoded from a valid 29-byte buffer
of bytes, encoding and re-decoding returns exactly the original record —
with no difference at all, sentinel padding included — provided its display
variant is What; for every other display variant the round trip loses the
variant or fails, as the counterexample shows. -/
theorem decode_encode_roundtrip_what_variant (b : List Nat) (r : EEPROM)
    (hlen : b.length = 29) (hbyte : ∀ x ∈ b, x < 256)
    (hdec : EEPROM.tryFrom b = some (.ok r))
    (hdv : r.display_variant = .What) :
    EEPROM.tryFrom r.toVec = some (.ok r) := by
  obtain ⟨hlen7, hw, hh, hcol, hpcb, hdvd, hps⟩ := eeprom_tryFrom_ok_inversion hdec
  obtain ⟨ht1, ht254, hwt⟩ := pascalString_tryFrom_ok_inversion hps
  have hmem : ∀ k, k < b.length → b.getD k 0 ∈ b := by
    intro k hk
    rw [List.getD_eq_getElem _ _ hk]
    exact List.getElem_mem _
  have hb0 := hbyte _ (hmem 0 (by omega))
  have hb1 := hbyte _ (hmem 1 (by omega))
  have hb2 := hbyte _ (hmem 2 (by omega))
  have hb3 := hbyte _ (hmem 3 (by omega))
  have hwlt : r.width < 65536 := by
    rw [hw]
    unfold u16FromLeBytes
    omega
  have hhlt : r.height < 65536 := by
    rw [hh]
    unfold u16FromLeBytes
    omega
  have htmem : ∀ x ∈ (b.drop 7).filter (fun v => v ≠ 255), x ≠ 255 := by
    intro x hx
    have hfx := List.of_mem_filter hx
    simpa using hfx
  have henc : r.toVec
      = (r.width % 256) :: (r.width / 256 % 256)
        :: (r.height % 256) :: (r.height / 256 % 256)
        :: r.color.toU8 :: r.pcb_variant.toU8 :: r.display_variant.toU8
        :: r.eeprom_write_time.capacity :: r.eeprom_write_time.data := by
    simp [EEPROM.toVec, u16ToLeBytes, PascalString.toVec]
  rw [henc, eeprom_tryFrom_cons7, color_toU8_roundtrip, pcb_toU8_roundtrip, hdv,
    dv_what_roundtrip, hwt]
  dsimp only
  set t := (b.drop 7).filter (fun v => v ≠ 255) with htdef
  have hdlen : (t.drop 1).length = t.length - 1 := by
    rw [List.length_drop]
  have hfil : (t.length :: t.drop 1).filter (fun v => v ≠ 255)
      = t.length :: t.drop 1 := by
    rw [List.filter_cons_of_pos (by simp; omega)]
    congr 1
    rw [List.filter_eq_self]
    intro x hx
    simp [htmem x (List.mem_of_mem_drop hx)]
  rw [hfil]
  have hconslen : (t.length :: t.drop 1).length = t.length := by
    rw [List.length_cons, hdlen]
    omega
  rw [pascalString_tryFrom_of_length _ (by simp) (by rw [hconslen]; omega)]
  rw [show List.drop 1 (t.length :: List.drop 1 t) = List.drop 1 t from rfl, hconslen]
  dsimp only
  have hwval : u16FromLeBytes (r.width % 256) (r.width / 256 % 256) = r.width := by
    unfold u16FromLeBytes
    omega
  have hhval : u16FromLeBytes (r.height % 256) (r.height / 256 % 256) = r.height := by
    unfold u16FromLeBytes
    omega
  rw [hwval, hhval, ← hdv, ← hwt]

/-- Witness for the amended claim C5 at the 29-byte What-variant buffer. -/
theorem decode_encode_roundtrip_what_variant_witness :
    EEPROM.tryFrom buffer29What = some (.ok sampleRecord) ∧
    EEPROM.tryFrom sampleRecord.toVec = some (.ok sampleRecord) :=
  ⟨by rfl,
    decode_encode_roundtrip_what_variant buffer29What sampleRecord (by rfl)
      (by decide) (by rfl) (by rfl)⟩
